import Mathlib

/-!
Verification of the teleton-agent plugin runtime core: the key-value
storage engine (src/sdk/storage.ts), the secrets store (src/sdk/secrets.ts),
the database provisioner's legacy copy (src/utils/module-db.ts), and the
tool registry (modelled from the specification, its implementation file
being absent from the source snapshot — only its test suite is present).
State is embedded explicitly: SQLite tables become association lists,
`Date.now()` becomes an integer parameter, the probabilistic cleanup
becomes an explicit boolean, and JavaScript truthiness is spelled out.
Definitions come first, then the lemmas and the claim theorems.
-/

namespace Teleton

/-! ### Association-list helpers (shared by all embeddings) -/

/-- Lookup in an association list keyed by strings (first match wins,
matching SQLite primary-key tables and JavaScript object access). -/
def lookupKey {α : Type} (m : List (String × α)) (k : String) : Option α :=
  (m.find? (fun p => p.1 == k)).map (fun p => p.2)

/-- Remove every entry with the given key. -/
def eraseKey {α : Type} (m : List (String × α)) (k : String) : List (String × α) :=
  m.filter (fun p => p.1 != k)

/-! ### Key-value storage engine (src/sdk/storage.ts)

The `_kv` table has columns `key` (primary key), `value`, `expires_at`.
Time is an explicit integer parameter standing for `Date.now()`; the
5%-probability cleanup sweep is an explicit boolean parameter standing
for the outcome of the `Math.random()` draw. Values are kept in their
serialized string form (`JSON.stringify`d by `set`, parsed back by `get`). -/

/-- One row of the `_kv` table. -/
structure KVRow where
  key : String
  value : String
  expiresAt : Option Int
deriving Repr, DecidableEq

/-- The `_kv` table, keyed by `key` (primary key: at most one live row per
key, maintained by `storageSet` below). -/
abbrev KVTable := List KVRow

/-- SELECT value, expires_at FROM _kv WHERE key = ? -/
def kvLookup (tbl : KVTable) (k : String) : Option KVRow :=
  tbl.find? (fun r => r.key == k)

/-- DELETE FROM _kv WHERE key = ? -/
def kvDelete (tbl : KVTable) (k : String) : KVTable :=
  tbl.filter (fun r => r.key != k)

/-- The expiry test of `get`/`has`: `row.expires_at !== null && row.expires_at < Date.now()`. -/
def rowExpired (now : Int) (r : KVRow) : Bool :=
  match r.expiresAt with
  | some e => e < now
  | none => false

/-- The bulk sweep: DELETE FROM _kv WHERE expires_at IS NOT NULL AND expires_at < ?. -/
def kvCleanup (tbl : KVTable) (now : Int) : KVTable :=
  tbl.filter (fun r => !rowExpired now r)

/-- `storage.get(key)` from createStorageSDK: optional probabilistic sweep,
then the row lookup; an expired row is deleted and reported absent.
Returns the result together with the table after the read. -/
def storageGet (tbl : KVTable) (now : Int) (cleanup : Bool) (k : String) :
    Option String × KVTable :=
  let t1 := if cleanup then kvCleanup tbl now else tbl
  match kvLookup t1 k with
  | none => (none, t1)
  | some r => if rowExpired now r then (none, kvDelete t1 k) else (some r.value, t1)

/-- The expiry computed by `storage.set`: `opts?.ttl ? Date.now() + opts.ttl : null`.
A TTL of 0 is falsy in JavaScript, so it yields null exactly like an
omitted option. -/
def ttlToExpiry (now : Int) (ttl : Option Int) : Option Int :=
  match ttl with
  | some t => if t = 0 then none else some (now + t)
  | none => none

/-- `storage.set(key, value, opts)`: INSERT OR REPLACE on the primary key. -/
def storageSet (tbl : KVTable) (now : Int) (k v : String) (ttl : Option Int) : KVTable :=
  { key := k, value := v, expiresAt := ttlToExpiry now ttl } :: kvDelete tbl k

/-! ### Secrets store (src/sdk/secrets.ts) -/

/-- A JavaScript value sitting in a plugin's `pluginConfig` block.
`undefined` is represented by absence from the association list. -/
inductive CVal where
  | str (s : String)
  | num (n : Int)
  | boolv (b : Bool)
  | nullv
deriving Repr, DecidableEq

/-- JavaScript `String(v)` on a config value. -/
def cvalToString : CVal → String
  | .str s => s
  | .num n => toString n
  | .boolv true => "true"
  | .boolv false => "false"
  | .nullv => "null"

/-- ASCII upper-casing of one character (plugin names are lowercase
alphanumeric plus hyphen per the manifest pattern, so ASCII covers the
`toUpperCase()` calls of createSecretsSDK). -/
def upChar (c : Char) : Char :=
  if 'a' ≤ c ∧ c ≤ 'z' then Char.ofNat (c.toNat - 32) else c

/-- ASCII upper-casing of a string, character by character. -/
def strUpper (s : String) : String :=
  String.mk (s.data.map upChar)

/-- The env-var base: every hyphen of the plugin name replaced by an
underscore, then upper-cased (the `envPrefix` of createSecretsSDK). -/
def envBaseOf (pluginName : String) : String :=
  String.mk (pluginName.data.map (fun c => if c = '-' then '_' else upChar c))

/-- The env-var name consulted for a key: base plus `_` plus the upper-cased key. -/
def envKeyOf (pluginName key : String) : String :=
  envBaseOf pluginName ++ "_" ++ strUpper key

/-- The three sources `get` consults: `process.env`, the parsed content of the
persisted secrets file, and the plugin's `pluginConfig` block. -/
structure SecretsEnv where
  env : List (String × String)
  stored : List (String × String)
  config : List (String × CVal)
deriving Repr, DecidableEq

/-- Step 3 of `get`'s chain: the config value is returned via `String(...)`
unless it is `undefined` (absent) or `null` — note an empty string passes
this test and is returned. -/
def secretsGetConfig (s : SecretsEnv) (key : String) : Option String :=
  match lookupKey s.config key with
  | some CVal.nullv => none
  | some cv => some (cvalToString cv)
  | none => none

/-- Steps 2 and 3 of `get`'s chain: the secrets file is consulted with
`key in stored && stored[key]`, so an empty string falls through. -/
def secretsGetStore (s : SecretsEnv) (key : String) : Option String :=
  match lookupKey s.stored key with
  | some v =>
    if v = "" then secretsGetConfig s key else some v
  | none => secretsGetConfig s key

/-- `createSecretsSDK(...).get(key)`: environment variable first (skipped
when falsy, i.e. absent or empty), then the secrets file, then config. -/
def secretsGet (pluginName : String) (s : SecretsEnv) (key : String) : Option String :=
  match lookupKey s.env (envKeyOf pluginName key) with
  | some v =>
    if v = "" then secretsGetStore s key else some v
  | none => secretsGetStore s key

/-- `createSecretsSDK(...).require(key)`: rejects a falsy `get` result
(absent or empty string) with a typed error. -/
def secretsRequire (pluginName : String) (s : SecretsEnv) (key : String) :
    Except String String :=
  match secretsGet pluginName s key with
  | some v =>
    if v = "" then
      .error ("Missing required secret \"" ++ key ++ "\". Set it via: /plugin set "
        ++ pluginName ++ " " ++ key ++ " <value>")
    else .ok v
  | none =>
    .error ("Missing required secret \"" ++ key ++ "\". Set it via: /plugin set "
      ++ pluginName ++ " " ++ key ++ " <value>")

/-- The persisted secrets file of one plugin: `none` models a missing file
or content that fails to parse as a JSON object (both read as `{}`). -/
abbrev SecretsFile := Option (List (String × String))

/-- `readSecretsFile`: a missing or corrupt file reads as the empty object. -/
def readSecretsFile : SecretsFile → List (String × String)
  | none => []
  | some m => m

/-- `deletePluginSecret(pluginName, key)`: returns `false` without touching
the file when the key is absent; otherwise removes it and rewrites the
file. Returns the flag together with the file afterwards. -/
def deletePluginSecret (file : SecretsFile) (key : String) : Bool × SecretsFile :=
  let existing := readSecretsFile file
  if (lookupKey existing key).isSome then
    (true, some (eraseKey existing key))
  else
    (false, file)

/-! ### Database provisioner legacy copy (src/utils/module-db.ts)

A database is an association list from table name to row count; row-level
content is abstracted to counts, which is what the claims are about.
`INSERT OR IGNORE INTO t SELECT * FROM main_db.t` into a target table
that is empty (the only state the copy loop can reach a target in) makes
the target's count equal the source's count; an insert into a missing
target table raises and is caught, skipping that table. `mainDb = none`
models a missing memory.db file. -/

/-- A database as table-name to row-count. -/
abbrev Db := List (String × Nat)

/-- SELECT COUNT(*) for a table; `none` when the table does not exist. -/
def dbLookup (db : Db) (t : String) : Option Nat :=
  lookupKey db t

/-- Overwrite the row count of an existing table (no-op on absent tables). -/
def dbSet (db : Db) (t : String) (n : Nat) : Db :=
  db.map (fun p => if p.1 = t then (p.1, n) else p)

/-- The table-name validation: one or more characters, each a lowercase
letter or an underscore (the regular expression of migrateFromMainDb). -/
def validTableName (s : String) : Bool :=
  !s.data.isEmpty && s.data.all (fun c => ('a' ≤ c && c ≤ 'z') || c = '_')

/-- Does some target table in the list already hold data? This is the
"skip if any target table already has data" scan; a missing table throws
inside the scan and is skipped (`getD 0`). -/
def anyTargetHasData (db : Db) (tables : List String) : Bool :=
  tables.any (fun t => 0 < (dbLookup db t).getD 0)

/-- One iteration of the copy loop: skip when the source table is absent
or empty, skip (caught exception) when the target table is absent,
otherwise bulk-copy and add the source count to the running total. -/
def migrateStep (main : Db) (acc : Db × Nat) (t : String) : Db × Nat :=
  match dbLookup main t with
  | none => acc
  | some 0 => acc
  | some c =>
    match dbLookup acc.1 t with
    | none => acc
    | some _ => (dbSet acc.1 t c, acc.2 + c)

/-- `migrateFromMainDb(moduleDb, tables)`: validate every name, return 0
rows if any target table already has data or memory.db is missing,
otherwise run the attached-database copy loop. The result is the module
database afterwards together with the reported total. -/
def migrateFromMainDb (moduleDb : Db) (mainDb : Option Db) (tables : List String) :
    Except String (Db × Nat) :=
  match tables.find? (fun t => !validTableName t) with
  | some t => .error ("Invalid table name for migration: \"" ++ t ++ "\"")
  | none =>
    if anyTargetHasData moduleDb tables then
      .ok (moduleDb, 0)
    else
      match mainDb with
      | none => .ok (moduleDb, 0)
      | some main => .ok (tables.foldl (migrateStep main) (moduleDb, 0))

/-- The per-table copy claim about migrateFromMainDb, stated the way the
specification sentence reads: every listed table whose host twin has at
least one row and whose own target table is still empty gets copied,
regardless of the other tables in the list. (Checked against the source
behaviour below; the source skips the whole list when any target table
has data.) -/
def migratePerTableClaim (db main : Db) (ts : List String) : Prop :=
  ∀ db1 n, migrateFromMainDb db (some main) ts = Except.ok (db1, n) →
    ∀ t ∈ ts, ∀ c, dbLookup main t = some c → 0 < c → dbLookup db t = some 0 →
      dbLookup db1 t = some c

/-! ### Tool registry

Modelled from the spec: the registry implementation file is not part of
the source snapshot (only its test suite is), so the definitions below
follow the specification of the Tool Registry — its register /
registerPluginTools / getForContext / execute operations, the persisted
ToolConfig policy, scope enforcement, the execution timeout, and
executor-exception capture. An executor's behaviour under the timeout is
embedded as an outcome: it returns a result, raises an error, or
overruns the time budget. -/

/-- Modelled from the spec: tool visibility scope. -/
inductive Scope where
  | always
  | dmOnly
  | groupOnly
  | adminOnly
deriving Repr, DecidableEq

/-- Modelled from the spec: a structured tool result `{success, error?, data?}`. -/
structure ToolResult where
  success : Bool
  error : Option String
  data : Option String
deriving Repr, DecidableEq

/-- Modelled from the spec: what a bound executor does when invoked under
the registry's fixed timeout — return a result, raise, or overrun the
time budget. -/
inductive ExecOutcome where
  | ok (r : ToolResult)
  | raises (msg : String)
  | overruns
deriving Repr, DecidableEq

/-- Modelled from the spec: a ToolDefinition bound to its executor and
static scope (an entry owned by the registry). -/
structure ToolEntry where
  name : String
  scope : Scope
  outcome : ExecOutcome
deriving Repr, DecidableEq

/-- Modelled from the spec: the persisted per-tool policy row. -/
structure ToolConfig where
  enabled : Bool
  scope : Scope
deriving Repr, DecidableEq

/-- Modelled from the spec: the registry — tools in registration order,
the loaded policy cache, and the plugin-owned module markers. -/
structure Registry where
  tools : List ToolEntry
  config : List (String × ToolConfig)
  pluginModules : List String
deriving Repr, DecidableEq

/-- Modelled from the spec: the invocation context fields the registry
consults — group flag, caller id, and the configured admin ids. -/
structure Ctx where
  isGroup : Bool
  senderId : Int
  adminIds : List Int
deriving Repr, DecidableEq

/-- Modelled from the spec: tool lookup by its globally unique name. -/
def findTool (reg : Registry) (n : String) : Option ToolEntry :=
  reg.tools.find? (fun e => e.name == n)

/-- Modelled from the spec: is the name already registered? -/
def hasTool (reg : Registry) (n : String) : Bool :=
  (findTool reg n).isSome

/-- Modelled from the spec: policy default — absent ToolConfig row means enabled. -/
def toolEnabled (reg : Registry) (n : String) : Bool :=
  match lookupKey reg.config n with
  | some c => c.enabled
  | none => true

/-- Modelled from the spec: the effective scope — the persisted policy
scope when a row exists, the entry's static scope otherwise. -/
def effScope (reg : Registry) (e : ToolEntry) : Scope :=
  match lookupKey reg.config e.name with
  | some c => c.scope
  | none => e.scope

/-- Modelled from the spec: `register(def, executor, scope?)` — hard
failure on a duplicate name, append in registration order otherwise. -/
def Registry.register (reg : Registry) (e : ToolEntry) : Except String Registry :=
  if hasTool reg e.name then
    .error ("Tool \"" ++ e.name ++ "\" is already registered")
  else
    .ok { reg with tools := reg.tools ++ [e] }

/-- Modelled from the spec: one entry of `registerPluginTools` — skip a
taken name, register and count otherwise. -/
def rptStep (acc : Registry × Nat) (e : ToolEntry) : Registry × Nat :=
  if hasTool acc.1 e.name then acc
  else ({ acc.1 with tools := acc.1.tools ++ [e] }, acc.2 + 1)

/-- Modelled from the spec: `registerPluginTools(pluginName, entries)` —
skips entries whose names are taken, tags the module as plugin-owned,
and returns the count actually registered. -/
def Registry.registerPluginTools (reg : Registry) (pluginName : String)
    (entries : List ToolEntry) : Registry × Nat :=
  let r := entries.foldl rptStep (reg, 0)
  ({ r.1 with pluginModules := pluginName :: r.1.pluginModules }, r.2)

/-- Modelled from the spec: does the effective scope admit this context?
Returns the scope-violation message, or `none` when admitted. -/
def scopeViolationMsg (sc : Scope) (ctx : Ctx) (n : String) : Option String :=
  match sc with
  | .always => none
  | .dmOnly =>
    if ctx.isGroup then some ("Tool \"" ++ n ++ "\" is not available in group chats")
    else none
  | .groupOnly =>
    if ctx.isGroup then none
    else some ("Tool \"" ++ n ++ "\" is only available in group chats")
  | .adminOnly =>
    if ctx.adminIds.contains ctx.senderId then none
    else some ("Tool \"" ++ n ++ "\" is restricted to admin users")

/-- Modelled from the spec: running the bound executor under the fixed
timeout, all failures captured into a structured result. -/
def runOutcome (n : String) (o : ExecOutcome) : ToolResult :=
  match o with
  | .ok r => r
  | .raises msg => { success := false, error := some msg, data := none }
  | .overruns =>
    { success := false, error := some ("Tool \"" ++ n ++ "\" timed out"), data := none }

/-- Modelled from the spec: `execute(call, context)` — unknown name,
disabled tool, and scope violation are structured failures; then the
executor runs under the timeout with exceptions and overruns captured.
The function is total into `ToolResult`: no exception crosses it. -/
def Registry.execute (reg : Registry) (callName : String) (ctx : Ctx) : ToolResult :=
  match findTool reg callName with
  | none =>
    { success := false, error := some ("Unknown tool: " ++ callName), data := none }
  | some e =>
    if toolEnabled reg callName then
      match scopeViolationMsg (effScope reg e) ctx callName with
      | some msg => { success := false, error := some msg, data := none }
      | none => runOutcome callName e.outcome
    else
      { success := false
        error := some ("Tool \"" ++ callName ++ "\" is currently disabled")
        data := none }

/-- Modelled from the spec: the call-time error conditions of `execute`:
unknown tool, disabled tool, scope violation, executor exception,
executor timeout. -/
def callTimeError (reg : Registry) (callName : String) (ctx : Ctx) : Prop :=
  findTool reg callName = none
  ∨ (∃ e, findTool reg callName = some e ∧ toolEnabled reg callName = false)
  ∨ (∃ e msg, findTool reg callName = some e
      ∧ scopeViolationMsg (effScope reg e) ctx callName = some msg)
  ∨ (∃ e msg, findTool reg callName = some e ∧ e.outcome = .raises msg)
  ∨ (∃ e, findTool reg callName = some e ∧ e.outcome = .overruns)

/-- Modelled from the spec: the scope filter of `getForContext`. -/
def scopeVisible (sc : Scope) (isGroup isAdmin : Bool) : Bool :=
  match sc with
  | .always => true
  | .dmOnly => !isGroup
  | .groupOnly => isGroup
  | .adminOnly => isAdmin

/-- Modelled from the spec: `getForContext(isGroup, limit, provider?,
isAdmin?)` — the enabled-only, scope-filtered list in registration
order, truncated to the limit when one is given. -/
def Registry.getForContext (reg : Registry) (isGroup : Bool) (limit : Option Nat)
    (isAdmin : Bool) : List ToolEntry :=
  let visible := reg.tools.filter
    (fun e => toolEnabled reg e.name && scopeVisible (effScope reg e) isGroup isAdmin)
  match limit with
  | some l => visible.take l
  | none => visible

/-- A sample successful executor outcome, used for concrete instances. -/
def sampleOutcome : ExecOutcome :=
  ExecOutcome.ok (ToolResult.mk true none none)

/-- A sample tool entry with the given name and scope. -/
def sampleEntry (n : String) (sc : Scope) : ToolEntry :=
  ToolEntry.mk n sc sampleOutcome

/-- A sample registry holding one tool named "dup". -/
def sampleRegistry : Registry :=
  Registry.mk [sampleEntry "dup" Scope.always] [] []

/-- A sample registry holding a dm-only tool and a group-only tool. -/
def sampleScopedRegistry : Registry :=
  Registry.mk [sampleEntry "d" Scope.dmOnly, sampleEntry "g" Scope.groupOnly] [] []

/-! ## Lemmas -/

theorem lookupKey_cons {α : Type} (p : String × α) (m : List (String × α)) (k : String) :
    lookupKey (p :: m) k = if p.1 = k then some p.2 else lookupKey m k := by
  by_cases h : p.1 = k
  · have hb : (p.1 == k) = true := beq_iff_eq.mpr h
    simp [lookupKey, List.find?, hb, h]
  · have hb : (p.1 == k) = false := beq_eq_false_iff_ne.mpr h
    simp [lookupKey, List.find?, hb, h]

theorem lookupKey_eraseKey {α : Type} (m : List (String × α)) (k k2 : String) :
    lookupKey (eraseKey m k) k2 = if k2 = k then none else lookupKey m k2 := by
  induction m with
  | nil => by_cases h : k2 = k <;> simp [lookupKey, eraseKey, h]
  | cons p m ih =>
    by_cases hp : p.1 = k
    · have hb : (p.1 != k) = false := by
        simp [bne, beq_iff_eq.mpr hp]
      have : eraseKey (p :: m) k = eraseKey m k := by
        simp [eraseKey, List.filter, hb]
      rw [this, ih, lookupKey_cons]
      by_cases hk : k2 = k
      · simp [hk]
      · have hpk2 : ¬ p.1 = k2 := by
          intro hc; exact hk (by rw [← hc, hp])
        simp [hk, hpk2]
    · have hb : (p.1 != k) = true := bne_iff_ne.mpr hp
      have : eraseKey (p :: m) k = p :: eraseKey m k := by
        simp [eraseKey, List.filter, hb]
      rw [this, lookupKey_cons, lookupKey_cons, ih]
      by_cases h2 : p.1 = k2
      · have hk : ¬ k2 = k := by
          intro hc; exact hp (by rw [h2, hc])
        simp [h2, hk]
      · simp [h2]

theorem lookupKey_eraseKey_self {α : Type} (m : List (String × α)) (k : String) :
    lookupKey (eraseKey m k) k = none := by
  rw [lookupKey_eraseKey]; simp

theorem kvLookup_kvDelete_self (tbl : KVTable) (k : String) :
    kvLookup (kvDelete tbl k) k = none := by
  induction tbl with
  | nil => simp [kvLookup, kvDelete]
  | cons r tbl ih =>
    by_cases h : r.key = k
    · have hb : (r.key != k) = false := by
        simp [bne, beq_iff_eq.mpr h]
      have hd : kvDelete (r :: tbl) k = kvDelete tbl k := by
        simp [kvDelete, List.filter, hb]
      rw [hd]; exact ih
    · have hb : (r.key != k) = true := bne_iff_ne.mpr h
      have hb2 : (r.key == k) = false := beq_eq_false_iff_ne.mpr h
      have hd : kvDelete (r :: tbl) k = r :: kvDelete tbl k := by
        simp [kvDelete, List.filter, hb]
      rw [hd]
      simp only [kvLookup, List.find?, hb2]
      exact ih

theorem kvLookup_kvCleanup_none (tbl : KVTable) (now : Int) (k : String)
    (h : kvLookup tbl k = none) : kvLookup (kvCleanup tbl now) k = none := by
  induction tbl with
  | nil => simp [kvLookup, kvCleanup]
  | cons r tbl ih =>
    have hk : (r.key == k) = false := by
      cases hx : r.key == k
      · rfl
      · exact absurd (by simp [kvLookup, List.find?, hx] : kvLookup (r :: tbl) k ≠ none)
          (by simp [h])
    have h2 : kvLookup tbl k = none := by
      simpa [kvLookup, List.find?, hk] using h
    cases he : rowExpired now r
    · have := ih h2
      simpa [kvCleanup, kvLookup, List.filter, List.find?, he, hk] using this
    · simpa [kvCleanup, List.filter, he] using ih h2

/-- A fresh row inserted by `storageSet` is the row `storageGet` finds. -/
theorem kvLookup_storageSet (tbl : KVTable) (now : Int) (k v : String) (ttl : Option Int) :
    kvLookup (storageSet tbl now k v ttl) k =
      some { key := k, value := v, expiresAt := ttlToExpiry now ttl } := by
  simp [storageSet, kvLookup, List.find?]

/-- C6: after `storage.set(k, v, {ttl: T})` with positive `T` at time `now`,
a `get(k)` at a time strictly before `now + T` returns `v`, and a `get(k)`
at a time strictly after `now + T` returns absent and physically deletes
the row: the `_kv` table holds no row for `k` after that read. Both hold
whether or not the probabilistic sweep fires on the read. -/
theorem storage_ttl_roundtrip (tbl : KVTable) (now : Int) (k v : String) (T : Int)
    (hT : 0 < T) (t : Int) (cleanup : Bool) :
    (t < now + T → (storageGet (storageSet tbl now k v (some T)) t cleanup k).1 = some v)
    ∧ (now + T < t →
        (storageGet (storageSet tbl now k v (some T)) t cleanup k).1 = none
        ∧ kvLookup (storageGet (storageSet tbl now k v (some T)) t cleanup k).2 k = none) := by
  have hT0 : T ≠ 0 := by omega
  have hset : storageSet tbl now k v (some T)
      = { key := k, value := v, expiresAt := some (now + T) } :: kvDelete tbl k := by
    simp [storageSet, ttlToExpiry, hT0]
  constructor
  · intro h
    have hexp : rowExpired t { key := k, value := v, expiresAt := some (now + T) } = false := by
      simp [rowExpired]; omega
    cases cleanup
    · rw [hset]
      simp [storageGet, kvLookup, List.find?, hexp]
    · rw [hset]
      simp [storageGet, kvCleanup, List.filter, hexp, kvLookup, List.find?]
  · intro h
    have hexp : rowExpired t { key := k, value := v, expiresAt := some (now + T) } = true := by
      simp [rowExpired]; omega
    cases cleanup
    · rw [hset]
      refine ⟨by simp [storageGet, kvLookup, List.find?, hexp], ?_⟩
      have hdel := kvLookup_kvDelete_self
        ({ key := k, value := v, expiresAt := some (now + T) } :: kvDelete tbl k) k
      simpa [storageGet, kvLookup, List.find?, hexp] using hdel
    · rw [hset]
      have hnone : kvLookup (List.filter (fun r => !rowExpired t r) (kvDelete tbl k)) k
          = none := by
        simpa [kvCleanup] using
          kvLookup_kvCleanup_none (kvDelete tbl k) t k (kvLookup_kvDelete_self tbl k)
      constructor
      · simp [storageGet, kvCleanup, List.filter, hexp, hnone]
      · simp [storageGet, kvCleanup, List.filter, hexp, hnone]

/-- Witness for C6 at a concrete input: key "k", value "v", TTL 5 set at
time 0, read at time 3 (hit) and at time 7 (miss with the row gone). -/
theorem storage_ttl_roundtrip_witness :
    ((storageGet (storageSet [] 0 "k" "v" (some 5)) 3 false "k").1 = some "v")
    ∧ ((storageGet (storageSet [] 0 "k" "v" (some 5)) 7 true "k").1 = none
        ∧ kvLookup (storageGet (storageSet [] 0 "k" "v" (some 5)) 7 true "k").2 "k" = none) :=
  ⟨(storage_ttl_roundtrip [] 0 "k" "v" 5 (by decide) 3 false).1 (by decide),
    (storage_ttl_roundtrip [] 0 "k" "v" 5 (by decide) 7 true).2 (by decide)⟩

/-- C9: `storage.set(k, v, {ttl: 0})` stores a non-expiring entry — a TTL
of zero is falsy in the `opts?.ttl ? ... : null` test, so the stored
expiry is null exactly as when the option is omitted, and `get(k)`
returns the value at every later time (sweep or not). -/
theorem storage_ttl_zero_nonexpiring (tbl : KVTable) (now : Int) (k v : String) :
    storageSet tbl now k v (some 0) = storageSet tbl now k v none
    ∧ ∀ t : Int, ∀ cleanup : Bool,
        (storageGet (storageSet tbl now k v (some 0)) t cleanup k).1 = some v := by
  have h0 : storageSet tbl now k v (some 0)
      = { key := k, value := v, expiresAt := none } :: kvDelete tbl k := by
    simp [storageSet, ttlToExpiry]
  constructor
  · simp [storageSet, ttlToExpiry]
  · intro t cleanup
    have hexp : rowExpired t { key := k, value := v, expiresAt := none } = false := by
      simp [rowExpired]
    cases cleanup <;> rw [h0] <;>
      simp [storageGet, kvCleanup, List.filter, hexp, kvLookup, List.find?]

/-- Step 3 returns the stringified config value when it is neither
undefined nor null. -/
theorem secretsGetConfig_of_present (s : SecretsEnv) (key : String) (cv : CVal)
    (hcv : lookupKey s.config key = some cv) (h0 : cv ≠ CVal.nullv) :
    secretsGetConfig s key = some (cvalToString cv) := by
  cases cv
  · simp [secretsGetConfig, hcv]
  · simp [secretsGetConfig, hcv]
  · simp [secretsGetConfig, hcv]
  · exact absurd rfl h0

/-- C2: the fixed resolution order of `SecretsSDK.get`. With a non-falsy
environment variable (named by the upper-cased hyphen-to-underscore
plugin base plus the upper-cased key), a non-falsy secrets-file entry,
and a non-null config value all present for the key, `get` returns the
environment value; with the environment variable removed it returns the
file value; with both removed it returns the config value coerced to
string; with all three removed it returns nothing. -/
theorem secrets_resolution_order (p : String) (s : SecretsEnv) (key ev sv : String)
    (cv : CVal)
    (hev : lookupKey s.env (envKeyOf p key) = some ev) (hev0 : ev ≠ "")
    (hsv : lookupKey s.stored key = some sv) (hsv0 : sv ≠ "")
    (hcv : lookupKey s.config key = some cv) (hcv0 : cv ≠ CVal.nullv) :
    secretsGet p s key = some ev
    ∧ secretsGet p
        (SecretsEnv.mk (eraseKey s.env (envKeyOf p key)) s.stored s.config) key = some sv
    ∧ secretsGet p
        (SecretsEnv.mk (eraseKey s.env (envKeyOf p key)) (eraseKey s.stored key) s.config)
        key = some (cvalToString cv)
    ∧ secretsGet p
        (SecretsEnv.mk (eraseKey s.env (envKeyOf p key)) (eraseKey s.stored key)
          (eraseKey s.config key)) key = none := by
  refine ⟨?_, ?_, ?_, ?_⟩
  · simp [secretsGet, hev, hev0]
  · simp [secretsGet, secretsGetStore, lookupKey_eraseKey_self, hsv, hsv0]
  · have hc := secretsGetConfig_of_present
      (SecretsEnv.mk (eraseKey s.env (envKeyOf p key)) (eraseKey s.stored key) s.config)
      key cv hcv hcv0
    simpa [secretsGet, secretsGetStore, lookupKey_eraseKey_self] using hc
  · simp [secretsGet, secretsGetStore, secretsGetConfig, lookupKey_eraseKey_self]

/-- Witness for C2 at a concrete input: plugin "my-plugin", key "api_key",
environment variable MY_PLUGIN_API_KEY. -/
theorem secrets_resolution_order_witness :
    secretsGet "my-plugin"
      (SecretsEnv.mk [("MY_PLUGIN_API_KEY", "from-env")] [("api_key", "from-file")]
        [("api_key", CVal.str "from-config")]) "api_key" = some "from-env"
    ∧ secretsGet "my-plugin"
      (SecretsEnv.mk
        (eraseKey [("MY_PLUGIN_API_KEY", "from-env")] (envKeyOf "my-plugin" "api_key"))
        [("api_key", "from-file")]
        [("api_key", CVal.str "from-config")]) "api_key" = some "from-file"
    ∧ secretsGet "my-plugin"
      (SecretsEnv.mk
        (eraseKey [("MY_PLUGIN_API_KEY", "from-env")] (envKeyOf "my-plugin" "api_key"))
        (eraseKey [("api_key", "from-file")] "api_key")
        [("api_key", CVal.str "from-config")]) "api_key"
        = some (cvalToString (CVal.str "from-config"))
    ∧ secretsGet "my-plugin"
      (SecretsEnv.mk
        (eraseKey [("MY_PLUGIN_API_KEY", "from-env")] (envKeyOf "my-plugin" "api_key"))
        (eraseKey [("api_key", "from-file")] "api_key")
        (eraseKey [("api_key", CVal.str "from-config")] "api_key")) "api_key"
        = none :=
  secrets_resolution_order "my-plugin"
    (SecretsEnv.mk [("MY_PLUGIN_API_KEY", "from-env")] [("api_key", "from-file")]
      [("api_key", CVal.str "from-config")])
    "api_key" "from-env" "from-file" (CVal.str "from-config")
    (by decide) (by decide) (by decide) (by decide) (by decide) (by decide)

/-- C3 counterexample: with the plugin config holding the empty string
for a key and no other source holding a value, `get` returns the empty
string — not nothing. The check at the config step is
`configValue !== undefined && configValue !== null`, which an empty
string passes, so the claimed empty-string fallthrough does not happen
at that step. -/
theorem secrets_empty_config_counterexample :
    secretsGet "myplugin" (SecretsEnv.mk [] [] [("KEY", CVal.str "")]) "KEY" = some ""
    ∧ secretsGet "myplugin" (SecretsEnv.mk [] [] [("KEY", CVal.str "")]) "KEY" ≠ none := by
  refine ⟨by decide, by decide⟩

/-- C3 amended: at the environment-variable and secrets-file steps a
falsy (empty-string) value is treated as absent and resolution falls
through to the next step; at the config step only undefined and null
are treated as absent, so a config empty string is returned by `get` as
the empty string — while `require` still rejects it as missing. -/
theorem secrets_falsy_fallthrough (p key : String) (s : SecretsEnv) :
    (lookupKey s.env (envKeyOf p key) = some "" →
      secretsGet p s key
        = secretsGet p (SecretsEnv.mk (eraseKey s.env (envKeyOf p key)) s.stored s.config) key)
    ∧ (lookupKey s.stored key = some "" →
      secretsGet p s key
        = secretsGet p (SecretsEnv.mk s.env (eraseKey s.stored key) s.config) key)
    ∧ (lookupKey s.env (envKeyOf p key) = none → lookupKey s.stored key = none →
      lookupKey s.config key = some (CVal.str "") →
      secretsGet p s key = some ""
      ∧ secretsRequire p s key
        = .error ("Missing required secret \"" ++ key ++ "\". Set it via: /plugin set "
            ++ p ++ " " ++ key ++ " <value>")) := by
  refine ⟨?_, ?_, ?_⟩
  · intro h
    have h1 : secretsGet p s key = secretsGetStore s key := by
      simp [secretsGet, h]
    have h2 : secretsGet p
        (SecretsEnv.mk (eraseKey s.env (envKeyOf p key)) s.stored s.config) key
        = secretsGetStore (SecretsEnv.mk (eraseKey s.env (envKeyOf p key)) s.stored s.config)
            key := by
      simp [secretsGet, lookupKey_eraseKey_self]
    rw [h1, h2]
    rfl
  · intro h
    have hl : secretsGetStore s key = secretsGetConfig s key := by
      simp [secretsGetStore, h]
    have hr : secretsGetStore (SecretsEnv.mk s.env (eraseKey s.stored key) s.config) key
        = secretsGetConfig s key := by
      have he : secretsGetConfig (SecretsEnv.mk s.env (eraseKey s.stored key) s.config) key
          = secretsGetConfig s key := rfl
      simp [secretsGetStore, lookupKey_eraseKey_self, he]
    cases henv : lookupKey s.env (envKeyOf p key) with
    | none => simp [secretsGet, henv, hl, hr]
    | some v =>
      by_cases hv : v = ""
      · simp [secretsGet, henv, hv, hl, hr]
      · simp [secretsGet, henv, hv]
  · intro h1 h2 h3
    have hg : secretsGet p s key = some "" := by
      simp [secretsGet, h1, secretsGetStore, h2, secretsGetConfig, h3, cvalToString]
    exact ⟨hg, by simp [secretsRequire, hg]⟩

/-- Witness for C3's amended claim at concrete inputs: an empty env var
falls through to the file, an empty file entry falls through to config,
and an empty config value is returned while `require` rejects it. -/
theorem secrets_falsy_fallthrough_witness :
    (secretsGet "p" (SecretsEnv.mk [("P_K", "")] [("k", "file")] []) "k"
      = secretsGet "p"
        (SecretsEnv.mk (eraseKey [("P_K", "")] (envKeyOf "p" "k")) [("k", "file")] []) "k")
    ∧ (secretsGet "p" (SecretsEnv.mk [] [("k", "")] [("k", CVal.str "cfg")]) "k"
      = secretsGet "p"
        (SecretsEnv.mk [] (eraseKey [("k", "")] "k") [("k", CVal.str "cfg")]) "k")
    ∧ (secretsGet "p" (SecretsEnv.mk [] [] [("k", CVal.str "")]) "k" = some ""
      ∧ secretsRequire "p" (SecretsEnv.mk [] [] [("k", CVal.str "")]) "k"
        = .error ("Missing required secret \"" ++ "k" ++ "\". Set it via: /plugin set "
            ++ "p" ++ " " ++ "k" ++ " <value>")) :=
  ⟨(secrets_falsy_fallthrough "p" "k"
      (SecretsEnv.mk [("P_K", "")] [("k", "file")] [])).1 (by decide),
   (secrets_falsy_fallthrough "p" "k"
      (SecretsEnv.mk [] [("k", "")] [("k", CVal.str "cfg")])).2.1 (by decide),
   (secrets_falsy_fallthrough "p" "k"
      (SecretsEnv.mk [] [] [("k", CVal.str "")])).2.2
      (by decide) (by decide) (by decide)⟩

/-- C10: `deletePluginSecret` returns false and leaves the persisted file
unchanged when the key is absent from the store; when the key is present
it returns true and the resulting file holds exactly the prior mappings
minus that key. -/
theorem deletePluginSecret_spec (file : SecretsFile) (key : String) :
    (lookupKey (readSecretsFile file) key = none →
      deletePluginSecret file key = (false, file))
    ∧ (∀ v, lookupKey (readSecretsFile file) key = some v →
        (deletePluginSecret file key).1 = true
        ∧ (deletePluginSecret file key).2 = some (eraseKey (readSecretsFile file) key)
        ∧ ∀ k2, lookupKey (readSecretsFile (deletePluginSecret file key).2) k2
            = if k2 = key then none else lookupKey (readSecretsFile file) k2) := by
  constructor
  · intro h
    simp [deletePluginSecret, h]
  · intro v h
    have hs : (lookupKey (readSecretsFile file) key).isSome = true := by simp [h]
    have hres : deletePluginSecret file key
        = (true, some (eraseKey (readSecretsFile file) key)) := by
      simp [deletePluginSecret, hs]
    refine ⟨by rw [hres], by rw [hres], ?_⟩
    intro k2
    rw [hres]
    simp [readSecretsFile, lookupKey_eraseKey]

/-- Witness for C10 at concrete inputs: deleting an absent key from a
one-entry store, and deleting a present key from a two-entry store. -/
theorem deletePluginSecret_spec_witness :
    deletePluginSecret (some [("a", "1")]) "b" = (false, some [("a", "1")])
    ∧ ((deletePluginSecret (some [("a", "1"), ("b", "2")]) "a").1 = true
      ∧ (deletePluginSecret (some [("a", "1"), ("b", "2")]) "a").2
          = some (eraseKey (readSecretsFile (some [("a", "1"), ("b", "2")])) "a")
      ∧ ∀ k2, lookupKey
            (readSecretsFile (deletePluginSecret (some [("a", "1"), ("b", "2")]) "a").2) k2
          = if k2 = "a" then none
            else lookupKey (readSecretsFile (some [("a", "1"), ("b", "2")])) k2) :=
  ⟨(deletePluginSecret_spec (some [("a", "1")]) "b").1 (by decide),
   (deletePluginSecret_spec (some [("a", "1"), ("b", "2")]) "a").2 "1" (by decide)⟩

theorem dbLookup_dbSet_self (db : Db) (t : String) (n : Nat)
    (h : (dbLookup db t).isSome = true) : dbLookup (dbSet db t n) t = some n := by
  induction db with
  | nil => simp [dbLookup, lookupKey] at h
  | cons p db ih =>
    by_cases hp : p.1 = t
    · have : dbSet (p :: db) t n = (p.1, n) :: dbSet db t n := by
        simp [dbSet, hp]
      rw [this]
      simp [dbLookup, lookupKey_cons, hp]
    · have : dbSet (p :: db) t n = p :: dbSet db t n := by
        simp [dbSet, hp]
      rw [this]
      have h2 : (dbLookup db t).isSome = true := by
        have := lookupKey_cons p db t
        simp only [dbLookup] at h ⊢
        rw [this, if_neg hp] at h
        exact h
      have := ih h2
      simp only [dbLookup] at this ⊢
      rw [lookupKey_cons, if_neg hp]
      exact this

theorem dbLookup_dbSet_ne (db : Db) (t : String) (n : Nat) (t2 : String)
    (h : t2 ≠ t) : dbLookup (dbSet db t n) t2 = dbLookup db t2 := by
  induction db with
  | nil => simp [dbLookup, dbSet]
  | cons p db ih =>
    by_cases hp : p.1 = t
    · have hs : dbSet (p :: db) t n = (p.1, n) :: dbSet db t n := by
        simp [dbSet, hp]
      have hp2 : ¬ p.1 = t2 := by
        intro hc; exact h (by rw [← hc, hp])
      rw [hs]
      simp only [dbLookup] at ih ⊢
      rw [lookupKey_cons, lookupKey_cons, if_neg hp2, if_neg hp2]
      exact ih
    · have hs : dbSet (p :: db) t n = p :: dbSet db t n := by
        simp [dbSet, hp]
      rw [hs]
      simp only [dbLookup] at ih ⊢
      rw [lookupKey_cons, lookupKey_cons]
      by_cases hp2 : p.1 = t2
      · simp [hp2]
      · rw [if_neg hp2, if_neg hp2]
        exact ih

/-- A copy-loop step either leaves the accumulator alone or bulk-copies
one positive source table into an existing target table. -/
theorem migrateStep_eq (main : Db) (acc : Db × Nat) (u : String) :
    migrateStep main acc u = acc
    ∨ (∃ c, 0 < c ∧ dbLookup main u = some c ∧ (dbLookup acc.1 u).isSome = true
        ∧ migrateStep main acc u = (dbSet acc.1 u c, acc.2 + c)) := by
  unfold migrateStep
  cases hm : dbLookup main u with
  | none => exact Or.inl rfl
  | some c =>
    cases c with
    | zero => exact Or.inl rfl
    | succ k =>
      cases ht : dbLookup acc.1 u with
      | none => exact Or.inl rfl
      | some e =>
        exact Or.inr ⟨k + 1, by omega, rfl, by simp [ht], rfl⟩

/-- Tables outside the processed list are untouched by the copy loop. -/
theorem migrateFold_not_mem (main : Db) (ts : List String) :
    ∀ (acc : Db × Nat) (t : String), t ∉ ts →
      dbLookup (ts.foldl (migrateStep main) acc).1 t = dbLookup acc.1 t := by
  induction ts with
  | nil => intro acc t _; rfl
  | cons u ts ih =>
    intro acc t ht
    have htu : t ≠ u := fun hc => ht (hc ▸ List.mem_cons_self u ts)
    have hts : t ∉ ts := fun hc => ht (List.mem_cons_of_mem u hc)
    rw [List.foldl_cons]
    rw [ih (migrateStep main acc u) t hts]
    rcases migrateStep_eq main acc u with heq | ⟨c, _, _, _, heq⟩
    · rw [heq]
    · rw [heq]
      exact dbLookup_dbSet_ne acc.1 u c t htu

/-- Either the copy loop is a complete no-op, or it leaves some listed
table with a positive row count. -/
theorem migrateFold_cases (main : Db) (ts : List String) :
    ∀ acc : Db × Nat, ts.foldl (migrateStep main) acc = acc
      ∨ ∃ t ∈ ts, ∃ c, dbLookup (ts.foldl (migrateStep main) acc).1 t = some c ∧ 0 < c := by
  induction ts with
  | nil => intro acc; exact Or.inl rfl
  | cons u ts ih =>
    intro acc
    rw [List.foldl_cons]
    rcases migrateStep_eq main acc u with heq | ⟨c, hc, _, hsome, heq⟩
    · rw [heq]
      rcases ih acc with h2 | ⟨t, htm, c, hl, hc⟩
      · exact Or.inl h2
      · exact Or.inr ⟨t, List.mem_cons_of_mem u htm, c, hl, hc⟩
    · rw [heq]
      right
      by_cases hu : u ∈ ts
      · rcases ih (dbSet acc.1 u c, acc.2 + c) with h2 | ⟨t, htm, c2, hl, hc2⟩
        · refine ⟨u, List.mem_cons_self u ts, c, ?_, hc⟩
          rw [h2]
          exact dbLookup_dbSet_self acc.1 u c hsome
        · exact ⟨t, List.mem_cons_of_mem u htm, c2, hl, hc2⟩
      · refine ⟨u, List.mem_cons_self u ts, c, ?_, hc⟩
        rw [migrateFold_not_mem main ts (dbSet acc.1 u c, acc.2 + c) u hu]
        exact dbLookup_dbSet_self acc.1 u c hsome

/-- Some listed table with a positive count makes the skip-scan fire. -/
theorem anyTargetHasData_of (db : Db) (ts : List String) (t : String)
    (ht : t ∈ ts) (c : Nat) (hl : dbLookup db t = some c) (hc : 0 < c) :
    anyTargetHasData db ts = true := by
  simp only [anyTargetHasData, List.any_eq_true]
  exact ⟨t, ht, by simp [hl, hc]⟩

/-- The shape of migrateFromMainDb once every table name validates. -/
theorem migrateFromMainDb_eq_of (db : Db) (main : Option Db) (ts : List String)
    (hf : ts.find? (fun t => !validTableName t) = none) :
    migrateFromMainDb db main ts =
      (if anyTargetHasData db ts then Except.ok (db, 0)
       else match main with
         | none => Except.ok (db, 0)
         | some m => Except.ok (ts.foldl (migrateStep m) (db, 0))) := by
  unfold migrateFromMainDb
  rw [hf]

/-- C5: the legacy-copy step is idempotent — when a first call on a module
database succeeds with result state `db1`, a second call on `db1` with
the same host database and table list returns `db1` unchanged and
reports zero copied rows. -/
theorem migrate_idempotent (db : Db) (main : Option Db) (ts : List String)
    (db1 : Db) (n : Nat)
    (h : migrateFromMainDb db main ts = .ok (db1, n)) :
    migrateFromMainDb db1 main ts = .ok (db1, 0) := by
  cases hf : ts.find? (fun t => !validTableName t) with
  | some t =>
    unfold migrateFromMainDb at h
    rw [hf] at h
    simp at h
  | none =>
    rw [migrateFromMainDb_eq_of db main ts hf] at h
    rw [migrateFromMainDb_eq_of db1 main ts hf]
    by_cases ha : anyTargetHasData db ts
    · rw [if_pos ha] at h
      have h2 : db = db1 ∧ 0 = n := by simpa using h
      obtain ⟨h3, h4⟩ := h2
      subst h3
      rw [if_pos ha]
    · rw [if_neg ha] at h
      cases main with
      | none =>
        have h2 : db = db1 ∧ 0 = n := by simpa using h
        obtain ⟨h3, h4⟩ := h2
        subst h3
        rw [if_neg ha]
      | some m =>
        have hfold : ts.foldl (migrateStep m) (db, 0) = (db1, n) := by
          simpa using h
        rcases migrateFold_cases m ts (db, 0) with heq | ⟨t, htm, c, hl, hc⟩
        · have h2 : (db, 0) = (db1, n) := by rw [← heq, hfold]
          have h3 : db = db1 := congrArg Prod.fst h2
          subst h3
          rw [if_neg ha]
          show Except.ok (ts.foldl (migrateStep m) (db, 0)) = Except.ok (db, 0)
          rw [heq]
        · have hl1 : dbLookup db1 t = some c := by
            rw [hfold] at hl
            exact hl
          rw [if_pos (anyTargetHasData_of db1 ts t htm c hl1 hc)]

/-- Witness for C5 at a concrete input: one table "a", empty in the module
database and holding two rows in the host database; the first call copies
them and the second call is a no-op. -/
theorem migrate_idempotent_witness :
    migrateFromMainDb [("a", 2)] (some [("a", 2)]) ["a"] = .ok ([("a", 2)], 0) :=
  migrate_idempotent [("a", 0)] (some [("a", 2)]) ["a"] [("a", 2)] 2 (by rfl)

/-- C4 counterexample: the claimed per-table suppression is false. With
tables ["a", "b"], target table "a" non-empty (5 rows), target "b" empty,
and host table "b" holding 3 rows, the claim demands "b" be copied; the
source returns with "b" still empty, because any non-empty target table
suppresses the copy for the whole list. -/
theorem migrate_per_table_counterexample :
    ¬ migratePerTableClaim [("a", 5), ("b", 0)] [("b", 3)] ["a", "b"] := by
  intro h
  have hb := h [("a", 5), ("b", 0)] 0 (by rfl) "b" (by simp) 3 (by rfl) (by decide) (by rfl)
  exact absurd hb (by decide)

/-- When every target table in the (duplicate-free) list is empty or
missing, the copy loop sets each listed table that exists in the target
to its host count whenever the host table has rows, and leaves every
other listed table unchanged. -/
theorem migrateFold_lookup (main : Db) (ts : List String) :
    ∀ acc : Db × Nat, ts.Nodup →
      (∀ t ∈ ts, ∀ c, dbLookup acc.1 t = some c → c = 0) →
      ∀ t ∈ ts, dbLookup (ts.foldl (migrateStep main) acc).1 t =
        if 0 < (dbLookup main t).getD 0 ∧ (dbLookup acc.1 t).isSome = true
        then some ((dbLookup main t).getD 0) else dbLookup acc.1 t := by
  induction ts with
  | nil => intro acc _ _ t ht; exact absurd ht (List.not_mem_nil t)
  | cons u ts ih =>
    intro acc hnd hemp t ht
    have hu : u ∉ ts := (List.nodup_cons.mp hnd).1
    have hnd2 : ts.Nodup := (List.nodup_cons.mp hnd).2
    rw [List.foldl_cons]
    rcases List.mem_cons.mp ht with heqt | hts
    · subst heqt
      rw [migrateFold_not_mem main ts (migrateStep main acc t) t hu]
      cases hm : dbLookup main t with
      | none =>
        have hstep : migrateStep main acc t = acc := by simp [migrateStep, hm]
        rw [hstep]
        simp
      | some c =>
        cases c with
        | zero =>
          have hstep : migrateStep main acc t = acc := by simp [migrateStep, hm]
          rw [hstep]
          simp
        | succ k =>
          cases ht2 : dbLookup acc.1 t with
          | none =>
            have hstep : migrateStep main acc t = acc := by
              simp [migrateStep, hm, ht2]
            rw [hstep]
            simp [ht2]
          | some e =>
            have hstep : migrateStep main acc t = (dbSet acc.1 t (k + 1), acc.2 + (k + 1)) := by
              simp [migrateStep, hm, ht2]
            rw [hstep]
            have hset : dbLookup (dbSet acc.1 t (k + 1)) t = some (k + 1) :=
              dbLookup_dbSet_self acc.1 t (k + 1) (by simp [ht2])
            rw [hset]
            simp
    · have htu : t ≠ u := fun hc => hu (hc ▸ hts)
      have hpres : dbLookup (migrateStep main acc u).1 t = dbLookup acc.1 t := by
        rcases migrateStep_eq main acc u with heq | ⟨c, _, _, _, heq⟩
        · rw [heq]
        · rw [heq]
          exact dbLookup_dbSet_ne acc.1 u c t htu
      have hemp2 : ∀ t2 ∈ ts, ∀ c, dbLookup (migrateStep main acc u).1 t2 = some c → c = 0 := by
        intro t2 ht2 c hl
        have ht2u : t2 ≠ u := fun hc => hu (hc ▸ ht2)
        have hp2 : dbLookup (migrateStep main acc u).1 t2 = dbLookup acc.1 t2 := by
          rcases migrateStep_eq main acc u with heq | ⟨c2, _, _, _, heq⟩
          · rw [heq]
          · rw [heq]
            exact dbLookup_dbSet_ne acc.1 u c2 t2 ht2u
        exact hemp t2 (List.mem_cons_of_mem u ht2) c (by rw [← hp2]; exact hl)
      have hres := ih (migrateStep main acc u) hnd2 hemp2 t hts
      rw [hres, hpres]

/-- C4 amended: per startup, a non-empty target table suppresses the
legacy copy for the whole validated list (not only for itself); and when
every target table in the list is empty or missing, each listed table is
copied exactly when it exists in the module database and the shared host
database holds a same-named table with at least one row — the target
then ends with the host's row count, all other listed tables keep their
prior state. -/
theorem migrate_copy_characterization (db main : Db) (ts : List String)
    (hf : ts.find? (fun t => !validTableName t) = none)
    (hnd : ts.Nodup) :
    ((∃ t ∈ ts, ∃ c, dbLookup db t = some c ∧ 0 < c) →
      migrateFromMainDb db (some main) ts = .ok (db, 0))
    ∧ ((∀ t ∈ ts, (dbLookup db t).getD 0 = 0) →
      ∃ db1 n, migrateFromMainDb db (some main) ts = .ok (db1, n)
        ∧ ∀ t ∈ ts, dbLookup db1 t =
            if 0 < (dbLookup main t).getD 0 ∧ (dbLookup db t).isSome = true
            then some ((dbLookup main t).getD 0)
            else dbLookup db t) := by
  constructor
  · rintro ⟨t, ht, c, hl, hc⟩
    rw [migrateFromMainDb_eq_of db (some main) ts hf,
      if_pos (anyTargetHasData_of db ts t ht c hl hc)]
  · intro hemp
    have hemp2 : ∀ t ∈ ts, ∀ c, dbLookup db t = some c → c = 0 := by
      intro t ht c hl
      have := hemp t ht
      rw [hl] at this
      simpa using this
    have ha : ¬ anyTargetHasData db ts = true := by
      simp only [anyTargetHasData, List.any_eq_true, not_exists]
      intro t
      simp only [decide_eq_true_eq, not_and]
      intro ht
      rw [hemp t ht]
      omega
    rw [migrateFromMainDb_eq_of db (some main) ts hf, if_neg ha]
    refine ⟨(ts.foldl (migrateStep main) (db, 0)).1,
      (ts.foldl (migrateStep main) (db, 0)).2, rfl, ?_⟩
    intro t ht
    exact migrateFold_lookup main ts (db, 0) hnd hemp2 t ht

/-- Witness for C4's amended claim at concrete inputs: the suppression
branch with a non-empty target table "a", and the copy branch on an
all-empty pair of targets of which only "b" has host rows. -/
theorem migrate_copy_characterization_witness :
    migrateFromMainDb [("a", 5), ("b", 0)] (some [("b", 3)]) ["a", "b"]
      = .ok ([("a", 5), ("b", 0)], 0)
    ∧ ∃ db1 n, migrateFromMainDb [("a", 0), ("b", 0)] (some [("b", 3)]) ["a", "b"]
        = .ok (db1, n)
      ∧ ∀ t ∈ ["a", "b"], dbLookup db1 t =
          if 0 < (dbLookup [("b", 3)] t).getD 0
              ∧ (dbLookup [("a", 0), ("b", 0)] t).isSome = true
          then some ((dbLookup [("b", 3)] t).getD 0)
          else dbLookup [("a", 0), ("b", 0)] t :=
  ⟨(migrate_copy_characterization [("a", 5), ("b", 0)] [("b", 3)] ["a", "b"]
      (by rfl) (by decide)).1 (by decide),
   (migrate_copy_characterization [("a", 0), ("b", 0)] [("b", 3)] ["a", "b"]
      (by rfl) (by decide)).2 (by decide)⟩

theorem find?_append_of_some {α : Type} (p : α → Bool) (l l2 : List α) (x : α)
    (h : l.find? p = some x) : (l ++ l2).find? p = some x := by
  induction l with
  | nil => simp [List.find?] at h
  | cons a l ih =>
    cases hp : p a
    · rw [List.find?_cons_of_neg _ (by simp [hp])] at h
      rw [List.cons_append, List.find?_cons_of_neg _ (by simp [hp])]
      exact ih h
    · rw [List.find?_cons_of_pos _ hp] at h
      rw [List.cons_append, List.find?_cons_of_pos _ hp]
      exact h

theorem find?_append_of_none {α : Type} (p : α → Bool) (l l2 : List α)
    (h : l.find? p = none) : (l ++ l2).find? p = l2.find? p := by
  induction l with
  | nil => simp
  | cons a l ih =>
    cases hp : p a
    · rw [List.find?_cons_of_neg _ (by simp [hp])] at h
      rw [List.cons_append, List.find?_cons_of_neg _ (by simp [hp])]
      exact ih h
    · rw [List.find?_cons_of_pos _ hp] at h
      simp at h

/-- C1: every call-time error condition of `execute` — unknown tool,
disabled tool, scope violation, executor exception, executor timeout —
is recovered inside `execute` and surfaced as a structured failure
result with `success = false` and an error message; `execute` is total
into `ToolResult`, so no exception crosses the registry boundary. -/
theorem execute_recovers_call_time_errors (reg : Registry) (callName : String) (ctx : Ctx)
    (h : callTimeError reg callName ctx) :
    (Registry.execute reg callName ctx).success = false
    ∧ ((Registry.execute reg callName ctx).error).isSome = true := by
  cases hft : findTool reg callName with
  | none => simp [Registry.execute, hft]
  | some e =>
    cases hen : toolEnabled reg callName with
    | false => simp [Registry.execute, hft, hen]
    | true =>
      cases hsv : scopeViolationMsg (effScope reg e) ctx callName with
      | some msg => simp [Registry.execute, hft, hen, hsv]
      | none =>
        have hex : Registry.execute reg callName ctx = runOutcome callName e.outcome := by
          simp [Registry.execute, hft, hen, hsv]
        rw [hex]
        rcases h with h1 | ⟨e2, he2, hd⟩ | ⟨e2, msg, he2, hv⟩ | ⟨e2, msg, he2, hr⟩
          | ⟨e2, he2, ho⟩
        · rw [hft] at h1
          exact absurd h1 (by simp)
        · rw [hen] at hd
          exact absurd hd (by simp)
        · rw [hft] at he2
          injection he2 with he2
          subst he2
          rw [hsv] at hv
          exact absurd hv (by simp)
        · rw [hft] at he2
          injection he2 with he2
          subst he2
          rw [hr]
          simp [runOutcome]
        · rw [hft] at he2
          injection he2 with he2
          subst he2
          rw [ho]
          simp [runOutcome]

/-- Witness for C1 at a concrete input: calling an unknown tool on the
empty registry yields a structured failure. -/
theorem execute_recovers_call_time_errors_witness :
    (Registry.execute (Registry.mk [] [] []) "t" (Ctx.mk false 0 [])).success = false
    ∧ ((Registry.execute (Registry.mk [] [] []) "t" (Ctx.mk false 0 [])).error).isSome
        = true :=
  execute_recovers_call_time_errors (Registry.mk [] [] []) "t" (Ctx.mk false 0 [])
    (Or.inl (by rfl))

theorem rpt_fold_length (entries : List ToolEntry) :
    ∀ acc : Registry × Nat,
      (entries.foldl rptStep acc).1.tools.length + acc.2
        = acc.1.tools.length + (entries.foldl rptStep acc).2 := by
  induction entries with
  | nil => intro acc; rfl
  | cons e es ih =>
    intro acc
    rw [List.foldl_cons]
    cases hh : hasTool acc.1 e.name with
    | true =>
      have hstep : rptStep acc e = acc := by simp [rptStep, hh]
      rw [hstep]
      exact ih acc
    | false =>
      have hstep : rptStep acc e
          = ({ acc.1 with tools := acc.1.tools ++ [e] }, acc.2 + 1) := by
        simp [rptStep, hh]
      rw [hstep]
      have := ih ({ acc.1 with tools := acc.1.tools ++ [e] }, acc.2 + 1)
      simp only [List.length_append, List.length_cons, List.length_nil] at this ⊢
      omega

theorem rpt_fold_has (entries : List ToolEntry) :
    ∀ (acc : Registry × Nat) (n : String),
      hasTool (entries.foldl rptStep acc).1 n
        = (hasTool acc.1 n || entries.any (fun e2 => e2.name == n)) := by
  induction entries with
  | nil => intro acc n; simp
  | cons e es ih =>
    intro acc n
    rw [List.foldl_cons]
    cases hh : hasTool acc.1 e.name with
    | true =>
      have hstep : rptStep acc e = acc := by simp [rptStep, hh]
      rw [hstep, ih acc n, List.any_cons]
      cases hb : e.name == n
      · simp
      · have hbn : e.name = n := beq_iff_eq.mp hb
        rw [← hbn, hh]
        simp
    | false =>
      have hstep : rptStep acc e
          = ({ acc.1 with tools := acc.1.tools ++ [e] }, acc.2 + 1) := by
        simp [rptStep, hh]
      rw [hstep, ih _ n, List.any_cons]
      have happ : hasTool ({ acc.1 with tools := acc.1.tools ++ [e] } : Registry) n
          = (hasTool acc.1 n || (e.name == n)) := by
        cases hf : findTool acc.1 n with
        | some x =>
          have hf2 : List.find? (fun e2 => e2.name == n) acc.1.tools = some x := hf
          have h3 := find?_append_of_some (fun e2 => e2.name == n) acc.1.tools [e] x hf2
          simp only [hasTool, findTool] at hf ⊢
          rw [h3]
          simp [hf]
        | none =>
          have hf2 : List.find? (fun e2 => e2.name == n) acc.1.tools = none := hf
          have h3 := find?_append_of_none (fun e2 => e2.name == n) acc.1.tools [e] hf2
          simp only [hasTool, findTool] at hf ⊢
          rw [h3]
          cases hb : e.name == n
          · simp [List.find?, hb, hf]
          · simp [List.find?, hb, hf]
      rw [happ, Bool.or_assoc]

theorem rpt_fold_preserve (entries : List ToolEntry) :
    ∀ (acc : Registry × Nat) (n : String), hasTool acc.1 n = true →
      findTool (entries.foldl rptStep acc).1 n = findTool acc.1 n := by
  induction entries with
  | nil => intro acc n _; rfl
  | cons e es ih =>
    intro acc n hn
    rw [List.foldl_cons]
    cases hh : hasTool acc.1 e.name with
    | true =>
      have hstep : rptStep acc e = acc := by simp [rptStep, hh]
      rw [hstep]
      exact ih acc n hn
    | false =>
      have hstep : rptStep acc e
          = ({ acc.1 with tools := acc.1.tools ++ [e] }, acc.2 + 1) := by
        simp [rptStep, hh]
      rw [hstep]
      obtain ⟨x, hx⟩ := Option.isSome_iff_exists.mp hn
      have hx2 : List.find? (fun e2 => e2.name == n) acc.1.tools = some x := hx
      have happ : findTool ({ acc.1 with tools := acc.1.tools ++ [e] } : Registry) n
          = findTool acc.1 n := by
        simp only [findTool] at hx ⊢
        rw [find?_append_of_some (fun e2 => e2.name == n) acc.1.tools [e] x hx2, hx]
      have hn2 : hasTool ({ acc.1 with tools := acc.1.tools ++ [e] } : Registry) n = true := by
        simp only [hasTool]
        rw [happ]
        exact hn
      rw [ih _ n hn2, happ]

/-- C7: name-collision handling is asymmetric. `register` on a taken name
is a hard failure; `registerPluginTools` skips the conflicting entries,
leaves the previously registered entries untouched, registers exactly
the non-conflicting ones (a name is present afterwards iff it was
present before or appears in the batch), and returns the count actually
registered (the growth of the tool list). -/
theorem register_collision_asymmetry (reg : Registry) (e : ToolEntry) (p : String)
    (entries : List ToolEntry) (h : hasTool reg e.name = true) :
    Registry.register reg e = .error ("Tool \"" ++ e.name ++ "\" is already registered")
    ∧ (Registry.registerPluginTools reg p entries).1.tools.length
        = reg.tools.length + (Registry.registerPluginTools reg p entries).2
    ∧ (∀ n, hasTool (Registry.registerPluginTools reg p entries).1 n
        = (hasTool reg n || entries.any (fun e2 => e2.name == n)))
    ∧ (∀ n, hasTool reg n = true →
        findTool (Registry.registerPluginTools reg p entries).1 n = findTool reg n) := by
  refine ⟨?_, ?_, ?_, ?_⟩
  · simp [Registry.register, h]
  · show (entries.foldl rptStep (reg, 0)).1.tools.length
      = reg.tools.length + (entries.foldl rptStep (reg, 0)).2
    have h2 : (entries.foldl rptStep (reg, 0)).1.tools.length + (0 : Nat)
        = reg.tools.length + (entries.foldl rptStep (reg, 0)).2 :=
      rpt_fold_length entries (reg, 0)
    omega
  · intro n
    show hasTool (entries.foldl rptStep (reg, 0)).1 n
      = (hasTool reg n || entries.any (fun e2 => e2.name == n))
    exact rpt_fold_has entries (reg, 0) n
  · intro n hn
    show findTool (entries.foldl rptStep (reg, 0)).1 n = findTool reg n
    exact rpt_fold_preserve entries (reg, 0) n hn

/-- Witness for C7 at a concrete input: a registry holding "dup",
re-registering "dup" fails hard, while a plugin batch of "dup" and "new"
registers only "new", keeps the original "dup" entry, and counts one. -/
theorem register_collision_asymmetry_witness :
    Registry.register sampleRegistry (sampleEntry "dup" Scope.always)
      = .error ("Tool \"" ++ "dup" ++ "\" is already registered")
    ∧ (Registry.registerPluginTools sampleRegistry "plug"
        [sampleEntry "dup" Scope.always, sampleEntry "new" Scope.dmOnly]).1.tools.length
      = sampleRegistry.tools.length
        + (Registry.registerPluginTools sampleRegistry "plug"
            [sampleEntry "dup" Scope.always, sampleEntry "new" Scope.dmOnly]).2
    ∧ hasTool (Registry.registerPluginTools sampleRegistry "plug"
          [sampleEntry "dup" Scope.always, sampleEntry "new" Scope.dmOnly]).1 "new"
      = (hasTool sampleRegistry "new"
          || [sampleEntry "dup" Scope.always, sampleEntry "new" Scope.dmOnly].any
              (fun e2 => e2.name == "new"))
    ∧ findTool (Registry.registerPluginTools sampleRegistry "plug"
          [sampleEntry "dup" Scope.always, sampleEntry "new" Scope.dmOnly]).1 "dup"
      = findTool sampleRegistry "dup" := by
  have h := register_collision_asymmetry sampleRegistry (sampleEntry "dup" Scope.always)
    "plug" [sampleEntry "dup" Scope.always, sampleEntry "new" Scope.dmOnly] (by rfl)
  exact ⟨h.1, h.2.1, h.2.2.1 "new", h.2.2.2 "dup" (by rfl)⟩

/-- C8: `getForContext` never returns a dm-only tool when called for a
group context, and never returns a group-only tool when called for a
direct-message context — for every registry, limit, and admin flag,
with the tool's scope read through the effective policy. -/
theorem getForContext_scope_filter (reg : Registry) (limit : Option Nat) (isAdmin : Bool)
    (e : ToolEntry) :
    (effScope reg e = Scope.dmOnly → e ∉ Registry.getForContext reg true limit isAdmin)
    ∧ (effScope reg e = Scope.groupOnly →
        e ∉ Registry.getForContext reg false limit isAdmin) := by
  constructor
  · intro hsc hmem
    have hvis : e ∈ reg.tools.filter
        (fun x => toolEnabled reg x.name && scopeVisible (effScope reg x) true isAdmin) := by
      cases limit with
      | none => exact hmem
      | some l => exact List.take_subset _ _ hmem
    have hp := (List.mem_filter.mp hvis).2
    simp [hsc, scopeVisible] at hp
  · intro hsc hmem
    have hvis : e ∈ reg.tools.filter
        (fun x => toolEnabled reg x.name && scopeVisible (effScope reg x) false isAdmin) := by
      cases limit with
      | none => exact hmem
      | some l => exact List.take_subset _ _ hmem
    have hp := (List.mem_filter.mp hvis).2
    simp [hsc, scopeVisible] at hp

/-- Witness for C8 at a concrete input: a registry with a dm-only tool
"d" and a group-only tool "g"; neither appears in the opposite context. -/
theorem getForContext_scope_filter_witness :
    sampleEntry "d" Scope.dmOnly
        ∉ Registry.getForContext sampleScopedRegistry true none false
    ∧ sampleEntry "g" Scope.groupOnly
        ∉ Registry.getForContext sampleScopedRegistry false none false :=
  ⟨(getForContext_scope_filter sampleScopedRegistry none false
      (sampleEntry "d" Scope.dmOnly)).1 (by rfl),
   (getForContext_scope_filter sampleScopedRegistry none false
      (sampleEntry "g" Scope.groupOnly)).2 (by rfl)⟩

end Teleton
